import Mathlib

set_option autoImplicit false

/-!
# A model of `gpacalc.py`

Shallow embedding of the GPA calculator:

* grade cells and multipliers are modelled as exact rationals (`ℚ`); a
  missing cell (pandas `NaN`) is `Option.none`.  Every concrete value that
  appears in the verified scenarios (`90 * 1.2 = 108`, the means `85` and
  `94`, the rescaled values `3.4` and `3.8`) is computed exactly by IEEE
  double arithmetic as well, so the rational model agrees with the Python
  floats on those inputs; IEEE rounding at other inputs is outside the model.
* a pandas `DataFrame` is a list of labelled rows over a list of labelled
  columns (`GradeTable`);
* the label matching of `add_multipliers` splices the tag into the pattern
  `^(.*\s+)?TAG(\s+.*)?$` and runs `re.match` (via `Series.str.match`).
  `pyTagMatch` below models that matching for tags whose characters are
  either ordinary (non-special) characters or the metacharacter `.`;
  Python's `.` matches any character except a newline, `\s` is the
  whitespace class, and `$` accepts the end of the string or a position
  just before a terminal newline.
-/

namespace GpaCalc

/-- The ASCII characters of Python's `\s` class (space, tab, newline,
carriage return, vertical tab, form feed).  The claims only involve ASCII
labels; the extra Unicode whitespace of Python's `str` patterns is outside
the model. -/
def isWs (c : Char) : Bool :=
  c = ' ' || c = '\t' || c = '\n' || c = '\r' || c = Char.ofNat 11 || c = Char.ofNat 12

/-- No newline character occurs in the list (`.` in a Python pattern cannot
cross a newline). -/
def noNl (l : List Char) : Bool := l.all (fun c => c ≠ '\n')

/-- Remove the maximal run of whitespace at the end. -/
def dropTrailingWs (l : List Char) : List Char := (l.reverse.dropWhile isWs).reverse

/-- Remove the maximal run of whitespace at the start. -/
def dropLeadingWs (l : List Char) : List Char := l.dropWhile isWs

/-- The part of the label before the tag occurrence, as accepted by the
optional group `(.*\s+)?` anchored at `^`: either empty, or some
newline-free text followed by at least one whitespace character.  A split
exists exactly when the last character is whitespace and everything before
the maximal trailing whitespace run is newline-free. -/
def prefOK (p : List Char) : Bool :=
  p.isEmpty ||
    ((match p.getLast? with | some c => isWs c | none => false) &&
      noNl (dropTrailingWs p))

/-- What may follow the leading whitespace inside the group `(\s+.*)?$`:
`.*` is newline-free text, and `$` then accepts either the very end or a
position just before a terminal newline. -/
def okTail (r : List Char) : Bool :=
  noNl r || ((r.getLast? == some '\n') && noNl r.dropLast)

/-- The part of the label after the tag occurrence, as accepted by
`(\s+.*)?$` with Python's `$` semantics: empty (then `$` accepts the end of
the string, or the position just before a terminal `'\n'`), or at least one
whitespace character followed by an `okTail` remainder. -/
def sufOK (q : List Char) : Bool :=
  q.isEmpty ||
    ((match q.head? with | some c => isWs c | none => false) &&
      okTail (dropLeadingWs q))

/-- One position of the compiled tag pattern: a literal character, or
Python's `.` (any character except newline). -/
inductive TagAtom where
  | lit (c : Char)
  | anyChar
deriving DecidableEq

/-- The characters Python's regex engine treats specially in a pattern:
dot, plus, star, question mark, parentheses, square and curly brackets,
the vertical bar, the backslash, the caret and the dollar sign. -/
def isPatternSpecial (c : Char) : Bool :=
  c = '.' || c = '+' || c = '*' || c = '?' || c = '(' || c = ')' ||
  c = '[' || c = ']' || c = Char.ofNat 123 || c = Char.ofNat 125 ||
  c = '|' || c = '\\' || c = '^' || c = '$'

/-- How Python's regex engine reads the raw tag spliced into the pattern:
`.` becomes the any-character atom, every other character is matched
literally.  This reading is faithful to the engine only for tags whose
characters are all ordinary or `.`: the remaining metacharacters of
`isPatternSpecial` get operator semantics (a tag `A+` makes a quantified
pattern) or raise `re.error` (a tag `C++`), and tags containing them are
outside the model's domain — the token-matching theorem below therefore
excludes every pattern-special character from the tag. -/
def compileTag (tag : String) : List TagAtom :=
  tag.data.map (fun c => if c = '.' then TagAtom.anyChar else TagAtom.lit c)

/-- A single atom against a single character. -/
def atomMatch : TagAtom → Char → Bool
  | TagAtom.lit c, d => c = d
  | TagAtom.anyChar, d => d ≠ '\n'

/-- A compiled tag against a character list (exact length, pointwise). -/
def atomsMatch : List TagAtom → List Char → Bool
  | [], [] => true
  | a :: as, c :: cs => atomMatch a c && atomsMatch as cs
  | _, _ => false

/-- `re.match('^(.*\s+)?' + tag + '(\s+.*)?$', label)` as performed by
`add_multipliers` (gpacalc.py line 109): some split of the label into
`p ++ mid ++ q` where the compiled tag matches `mid`, `p` is accepted by
the leading group and `q` by the trailing group. -/
def pyTagMatch (tag label : String) : Bool :=
  let s := label.data
  let atoms := compileTag tag
  (List.range (s.length + 1)).any (fun i =>
    atomsMatch atoms ((s.drop i).take atoms.length) &&
    prefOK (s.take i) && sufOK ((s.drop i).drop atoms.length))

/-- Spec-side of the matching claims: the character just before the
occurrence, if any, is whitespace (equivalently, the occurrence is preceded
by the start of the string or by one-or-more whitespace characters). -/
def tokenPre (p : List Char) : Bool :=
  p.isEmpty || (match p.getLast? with | some c => isWs c | none => false)

/-- Spec-side: the character just after the occurrence, if any, is
whitespace. -/
def tokenSuf (q : List Char) : Bool :=
  q.isEmpty || (match q.head? with | some c => isWs c | none => false)

/-- Modelled from the spec's words (§4.2): the tag occurs in the label as a
complete whitespace-delimited token — some occurrence of the tag, as a
literal string, is preceded by the start of the string or one-or-more
whitespace characters and followed by the end of the string or one-or-more
whitespace characters. -/
def tokenMatch (tag label : String) : Bool :=
  let s := label.data
  let t := tag.data
  (List.range (s.length + 1)).any (fun i =>
    (decide ((s.drop i).take t.length = t)) &&
    tokenPre (s.take i) && tokenSuf ((s.drop i).drop t.length))

example : pyTagMatch "AP" "Pre-AP Chemistry" = false := by decide
example : pyTagMatch "Pre-AP" "Pre-AP Chemistry" = true := by decide
example : pyTagMatch "AP" "AP Biology" = true := by decide
example : pyTagMatch "AP" "Biology AP Lab" = true := by decide
example : pyTagMatch "AP" "Algebra" = false := by decide
example : pyTagMatch "AP" "a\nb AP" = false := by decide
example : tokenMatch "AP" "a\nb AP" = true := by decide
example : pyTagMatch "A." "AB" = true := by decide
example : tokenMatch "A." "AB" = false := by decide

/-! ## The gradebook table -/

/-- A pandas `DataFrame` as produced by `open_sheet`: labelled columns
(grading periods) and labelled rows (courses); a cell is a rational or
missing (`NaN`). -/
structure GradeTable where
  colLabels : List String
  rows : List (String × List (Option ℚ))
deriving DecidableEq, Repr

/-- Multiply one cell; `NaN` propagates (`Option.map`). -/
def scaleCell (m : ℚ) : Option ℚ → Option ℚ := Option.map (fun x => x * m)

/-- Multiply every cell of a row. -/
def scaleRow (m : ℚ) (cells : List (Option ℚ)) : List (Option ℚ) :=
  cells.map (scaleCell m)

/-- One iteration of the loop of `add_multipliers` (line 109): every row
whose label matches the tag is multiplied in place by the multiplier. -/
def applyTag (T : GradeTable) (tag : String) (m : ℚ) : GradeTable :=
  { T with
    rows := T.rows.map (fun r =>
      (r.1, if pyTagMatch tag r.1 then scaleRow m r.2 else r.2)) }

/-- `add_multipliers(grades, multiplier_dict)` (lines 89-110): iterate over
the registry entries in insertion order, rescaling the matching rows of a
copy of the table. -/
def add_multipliers (T : GradeTable) (d : List (String × ℚ)) : GradeTable :=
  d.foldl (fun acc p => applyTag acc p.1 p.2) T

/-- The default registry `{'AP': 1.2, 'Pre-AP': 1.1}` (line 145). -/
def defaultDict : List (String × ℚ) := [("AP", 6/5), ("Pre-AP", 11/10)]

/-! ## The GPA aggregation -/

/-- Mean of a list of rationals; the mean of an empty list is `NaN`
(pandas returns `NaN`, it does not raise). -/
def meanQ (l : List ℚ) : Option ℚ :=
  if l.isEmpty then none else some (l.sum / l.length)

/-- The numeric (non-`NaN`) entries of column `j`, top to bottom. -/
def colVals (T : GradeTable) (j : Nat) : List ℚ :=
  (T.rows.map (fun r => r.2.getD j none)).reduceOption

/-- The mean of column `j`, skipping `NaN` entries (`DataFrame.mean`). -/
def colMean (T : GradeTable) (j : Nat) : Option ℚ :=
  meanQ (colVals T j)

/-- `grades.mean().mean()` (lines 155-156): the mean of the per-column
means, where all-`NaN` columns drop out of the outer mean. -/
def gpaOf (T : GradeTable) : Option ℚ :=
  meanQ (((List.range T.colLabels.length).map (colMean T)).reduceOption)

/-- Modelled from the spec's words (§4.4): the arithmetic mean of all
numeric cell values across the entire table (here enumerated column by
column), missing cells excluded. -/
def grandMean (T : GradeTable) : Option ℚ :=
  meanQ (((List.range T.colLabels.length).map (colVals T)).flatten)

/-- Python's `round(x, 1)`: round half to even at one decimal place
(round to the nearest multiple of `1/10`, ties to the even multiple). -/
def round1 (q : ℚ) : ℚ :=
  (((if q * 10 - Int.floor (q * 10) < 1/2 then Int.floor (q * 10)
     else if 1/2 < q * 10 - Int.floor (q * 10) then Int.floor (q * 10) + 1
     else if Even (Int.floor (q * 10)) then Int.floor (q * 10)
     else Int.floor (q * 10) + 1) : Int) : ℚ) / 10

/-- Lines 154-164 of `main`: the two GPAs (unweighted, weighted), rescaled
by 25 before rounding when the four-point flag is set.  `NaN` (`none`)
propagates through the division and the rounding. -/
def computeGpas (T : GradeTable) (d : List (String × ℚ)) (four : Bool) :
    Option ℚ × Option ℚ :=
  let W := add_multipliers T d
  let gpa := gpaOf T
  let weighted := gpaOf W
  if four then
    (gpa.map (fun x => round1 (x / 25)), weighted.map (fun x => round1 (x / 25)))
  else
    (gpa.map round1, weighted.map round1)

/-! ## Parsing the multiplier configuration -/

/-- `l[::2]`: every other element, starting with the first. -/
def everyOther : List String → List String
  | [] => []
  | [a] => [a]
  | a :: _ :: rest => a :: everyOther rest

/-- Sequence a list of options (`[float(x) for x in multipliers]` fails as
a whole when any conversion fails). -/
def allSome {α : Type} : List (Option α) → Option (List α)
  | [] => some []
  | none :: _ => none
  | some a :: rest => (allSome rest).map (fun l => a :: l)

/-- Python `dict` insertion: an existing key keeps its position but takes
the new value, a new key is appended. -/
def dictInsert (l : List (String × ℚ)) (k : String) (v : ℚ) : List (String × ℚ) :=
  if l.any (fun p => p.1 = k) then
    l.map (fun p => if p.1 = k then (k, v) else p)
  else l ++ [(k, v)]

/-- `dict(zip(labels, multipliers))`: fold the pairs into a Python dict
(insertion order, later values overwrite earlier ones). -/
def dictOf (pairs : List (String × ℚ)) : List (String × ℚ) :=
  pairs.foldl (fun acc p => dictInsert acc p.1 p.2) []

/-- Dict lookup: the value of the first (and in a `dictOf` image, only)
entry with the key. -/
def lookupD (l : List (String × ℚ)) (k : String) : Option ℚ :=
  (l.find? (fun p => p.1 = k)).map (fun p => p.2)

/-- `parse_multipliers(multi_strings)` (lines 62-87), with Python's
`float` as an explicit parameter `pf` (it is a builtin; `none` stands for
a `ValueError`).  The `except`-and-`exit` path is the error value: both a
failing conversion and the length mismatch of an odd token count end
there, and no mapping is produced. -/
def parse_multipliers (pf : String → Option ℚ) (toks : List String) :
    Except Unit (List (String × ℚ)) :=
  let labels := everyOther toks
  let valueToks := everyOther toks.tail
  match allSome (valueToks.map pf) with
  | none => Except.error ()
  | some vals =>
    if vals.length ≠ labels.length then Except.error ()
    else Except.ok (dictOf (labels.zip vals))

/-- A concrete stand-in for Python's `float` used to instantiate
witnesses: it accepts exactly the value tokens of the witness inputs. -/
def pfW (s : String) : Option ℚ :=
  if s = "1.5" then some (3/2)
  else if s = "2" then some 2
  else if s = "1.2" then some (6/5)
  else none

/-- Lines 139-164 of `main`, from the loaded table to the two printed
GPAs: the registry is the default one or the parsed `-m` argument, and the
only failure is the `exit()` of `parse_multipliers`. -/
def mainRun (T : GradeTable) (multi : Option (List String)) (four : Bool)
    (pf : String → Option ℚ) : Except Unit (Option ℚ × Option ℚ) :=
  match multi with
  | none => Except.ok (computeGpas T defaultDict four)
  | some toks => (parse_multipliers pf toks).map (fun d => computeGpas T d four)

/-! ## An object store, for the claims about mutation

Python `DataFrame`s are mutable objects; `add_multipliers` copies its
argument (`grades.copy()`, line 102) and then updates the copy in place
(line 109).  A heap of tables with references as indices makes that
visible. -/

/-- A store of `DataFrame` objects; a reference is an index. -/
structure Heap where
  cells : List GradeTable
deriving DecidableEq

/-- The table a reference points to. -/
def hread (h : Heap) (r : Nat) : GradeTable := h.cells.getD r ⟨[], []⟩

/-- Update the object a reference points to. -/
def hwrite (h : Heap) (r : Nat) (t : GradeTable) : Heap := ⟨h.cells.set r t⟩

/-- `grades.copy()`: allocate a fresh object with the same contents. -/
def halloc (h : Heap) (t : GradeTable) : Heap × Nat :=
  (⟨h.cells ++ [t]⟩, h.cells.length)

/-- `add_multipliers` as it acts on the store: copy the table behind `g`
into a fresh object, then run the update loop on that object only, and
return a reference to it. -/
def add_multipliers_proc (h : Heap) (g : Nat) (d : List (String × ℚ)) :
    Heap × Nat :=
  let copy := halloc h (hread h g)
  let h2 := d.foldl
    (fun x p => hwrite x copy.2 (applyTag (hread x copy.2) p.1 p.2)) copy.1
  (h2, copy.2)

/-- The composite multiplier of a row label: the product of the
multipliers of the registry entries whose tag matches the label. -/
def prodMult (d : List (String × ℚ)) (lbl : String) : ℚ :=
  ((d.filter (fun p => pyTagMatch p.1 lbl)).map (fun p => p.2)).prod

/-- Every cell of the table is missing. -/
def allMissing (T : GradeTable) : Prop :=
  ∀ r ∈ T.rows, ∀ c ∈ r.2, c = none

/-! ## Concrete inputs for the scenarios -/

/-- The scenario table: rows `AP Biology` and `Algebra`, one grading
period with grades `90` and `80`. -/
def T2 : GradeTable := ⟨["g1"], [("AP Biology", [some 90]), ("Algebra", [some 80])]⟩

/-- A table whose missing cells are spread unevenly: column `c1` has one
numeric cell, column `c2` has two. -/
def T5 : GradeTable := ⟨["c1", "c2"], [("r1", [some 90, some 80]), ("r2", [none, some 70])]⟩

/-- A table with no numeric cells at all. -/
def T6 : GradeTable := ⟨["q1"], [("A", [none]), ("B", [none])]⟩

/-- Duplicate-tag multiplier tokens: `AP 1.5 AP 2`. -/
def toks0 : List String := ["AP", "1.5", "AP", "2"]

/-! ## The matcher agrees with token matching away from the edge cases -/

theorem compileTag_of_no_dot (tag : String) (hdot : '.' ∉ tag.data) :
    compileTag tag = tag.data.map TagAtom.lit := by
  unfold compileTag
  apply List.map_congr_left
  intro c hc
  have : c ≠ '.' := fun h => hdot (h ▸ hc)
  simp [this]

theorem atomsMatch_lit : ∀ (l m : List Char),
    atomsMatch (l.map TagAtom.lit) m = decide (m = l)
  | [], [] => by simp [atomsMatch]
  | [], c :: m => by simp [atomsMatch]
  | a :: l, [] => by simp [atomsMatch]
  | a :: l, c :: m => by
    by_cases h : a = c
    · subst h
      simp [atomsMatch, atomMatch, atomsMatch_lit l m]
    · simp [atomsMatch, atomMatch, atomsMatch_lit l m, h, Ne.symm h]

theorem noNl_eq_true (l : List Char) (h : '\n' ∉ l) : noNl l = true := by
  simp only [noNl, List.all_eq_true, decide_eq_true_eq]
  intro c hc hceq
  exact h (hceq ▸ hc)

theorem mem_dropTrailingWs {x : Char} {p : List Char} (h : x ∈ dropTrailingWs p) :
    x ∈ p := by
  unfold dropTrailingWs at h
  rw [List.mem_reverse] at h
  exact List.mem_reverse.mp (List.Sublist.mem h (List.dropWhile_sublist _))

theorem mem_dropLeadingWs {x : Char} {q : List Char} (h : x ∈ dropLeadingWs q) :
    x ∈ q := by
  unfold dropLeadingWs at h
  exact List.Sublist.mem h (List.dropWhile_sublist _)

theorem prefOK_eq_tokenPre (p : List Char) (h : '\n' ∉ p) :
    prefOK p = tokenPre p := by
  have : noNl (dropTrailingWs p) = true :=
    noNl_eq_true _ (fun hx => h (mem_dropTrailingWs hx))
  simp [prefOK, tokenPre, this]

theorem sufOK_eq_tokenSuf (q : List Char) (h : '\n' ∉ q) :
    sufOK q = tokenSuf q := by
  have : noNl (dropLeadingWs q) = true :=
    noNl_eq_true _ (fun hx => h (mem_dropLeadingWs hx))
  simp [sufOK, tokenSuf, okTail, this]

/-- For a tag without pattern metacharacters and a label without newlines,
the spliced-pattern matching of `add_multipliers` is exactly whitespace-
delimited token matching. -/
theorem pyTagMatch_eq_tokenMatch (tag label : String) (hdot : '.' ∉ tag.data)
    (hnl : '\n' ∉ label.data) : pyTagMatch tag label = tokenMatch tag label := by
  simp only [pyTagMatch, tokenMatch, compileTag_of_no_dot tag hdot, List.length_map]
  congr 1
  funext i
  rw [atomsMatch_lit]
  rw [prefOK_eq_tokenPre _ (fun hx => hnl (List.mem_of_mem_take hx))]
  rw [sufOK_eq_tokenSuf _ (fun hx => hnl (List.mem_of_mem_drop (List.mem_of_mem_drop hx)))]

/-! ## The weighting engine multiplies by the composite multiplier -/

theorem prodMult_nil (lbl : String) : prodMult [] lbl = 1 := rfl

theorem prodMult_cons (p : String × ℚ) (d : List (String × ℚ)) (lbl : String) :
    prodMult (p :: d) lbl =
      if pyTagMatch p.1 lbl then p.2 * prodMult d lbl else prodMult d lbl := by
  simp only [prodMult, List.filter_cons]
  split
  · simp
  · rfl

/-- The closed form of `add_multipliers`: the column labels are kept, and
every cell of a row is multiplied by the row's composite multiplier. -/
theorem add_multipliers_spec (d : List (String × ℚ)) (T : GradeTable) :
    (add_multipliers T d).colLabels = T.colLabels ∧
    (add_multipliers T d).rows =
      T.rows.map (fun r => (r.1, r.2.map (Option.map (fun x => x * prodMult d r.1)))) := by
  induction d generalizing T with
  | nil =>
    refine ⟨rfl, ?_⟩
    simp [add_multipliers, prodMult_nil]
  | cons p d ih =>
    have step : add_multipliers T (p :: d) = add_multipliers (applyTag T p.1 p.2) d := rfl
    rw [step]
    obtain ⟨hc, hr⟩ := ih (applyTag T p.1 p.2)
    refine ⟨by rw [hc]; rfl, ?_⟩
    rw [hr]
    simp only [applyTag, List.map_map]
    congr 1
    funext r
    by_cases h : pyTagMatch p.1 r.1 = true
    · simp [h, prodMult_cons, scaleRow, scaleCell, Function.comp, Option.map_map, mul_assoc]
    · simp [h, prodMult_cons]

/-- The composite multiplier only depends on the set of registry entries:
permuting the registry does not change it. -/
theorem prodMult_perm (d dd : List (String × ℚ)) (hp : d.Perm dd) (lbl : String) :
    prodMult d lbl = prodMult dd lbl :=
  List.Perm.prod_eq (List.Perm.map _ (List.Perm.filter _ hp))

/-- A row matching no registry tag has composite multiplier `1`. -/
theorem prodMult_eq_one (d : List (String × ℚ)) (lbl : String)
    (h : ∀ p ∈ d, pyTagMatch p.1 lbl = false) : prodMult d lbl = 1 := by
  unfold prodMult
  rw [List.filter_eq_nil_iff.mpr (fun p hp => by simp [h p hp])]
  rfl

/-- Permuting the registry permutes the loop iterations but not the
resulting table. -/
theorem add_multipliers_perm (T : GradeTable) (d dd : List (String × ℚ))
    (hp : d.Perm dd) : add_multipliers T d = add_multipliers T dd := by
  obtain ⟨hc, hr⟩ := add_multipliers_spec d T
  obtain ⟨hc2, hr2⟩ := add_multipliers_spec dd T
  cases hT : add_multipliers T d
  cases hT2 : add_multipliers T dd
  simp_all [prodMult_perm d dd hp]

/-! ## Evaluating the rounding at the scenario values -/

theorem round1_of_floor_lt (q : ℚ) (n : Int) (h1 : Int.floor (q * 10) = n)
    (h2 : q * 10 - n < 1/2) : round1 q = (n : ℚ) / 10 := by
  unfold round1
  rw [h1, if_pos h2]

theorem round1_of_floor_gt (q : ℚ) (n : Int) (h1 : Int.floor (q * 10) = n)
    (h2 : 1/2 < q * 10 - n) : round1 q = ((n : ℚ) + 1) / 10 := by
  unfold round1
  rw [h1, if_neg (by linarith), if_pos h2]
  push_cast
  ring

theorem round1_85 : round1 85 = 85 := by
  have h1 : Int.floor ((85 : ℚ) * 10) = 850 := by
    rw [Int.floor_eq_iff]; norm_num
  rw [round1_of_floor_lt 85 850 h1 (by push_cast; norm_num)]
  norm_num

theorem round1_94 : round1 94 = 94 := by
  have h1 : Int.floor ((94 : ℚ) * 10) = 940 := by
    rw [Int.floor_eq_iff]; norm_num
  rw [round1_of_floor_lt 94 940 h1 (by push_cast; norm_num)]
  norm_num

theorem round1_17d5 : round1 (17/5) = 17/5 := by
  have h1 : Int.floor ((17/5 : ℚ) * 10) = 34 := by
    rw [Int.floor_eq_iff]; norm_num
  rw [round1_of_floor_lt (17/5) 34 h1 (by push_cast; norm_num)]
  norm_num

theorem round1_94d25 : round1 (94/25) = 19/5 := by
  have h1 : Int.floor ((94/25 : ℚ) * 10) = 37 := by
    rw [Int.floor_eq_iff]; norm_num
  rw [round1_of_floor_gt (94/25) 37 h1 (by push_cast; norm_num)]
  norm_num

/-! ## A table with no numeric cells yields NaN GPAs -/

theorem reduceOption_eq_nil {α : Type} (l : List (Option α))
    (h : ∀ x ∈ l, x = none) : l.reduceOption = [] := by
  induction l with
  | nil => rfl
  | cons x l ih =>
    have hx := h x (List.mem_cons_self x l)
    subst hx
    rw [List.reduceOption_cons_of_none]
    exact ih (fun y hy => h y (List.mem_cons_of_mem _ hy))

theorem reduceOption_map_eq {α β : Type} (l : List α) (f : α → Option β) (g : α → β)
    (h : ∀ x ∈ l, f x = some (g x)) : (l.map f).reduceOption = l.map g := by
  induction l with
  | nil => rfl
  | cons x l ih =>
    rw [List.map_cons, h x (List.mem_cons_self x l), List.reduceOption_cons_of_some,
      List.map_cons, ih (fun y hy => h y (List.mem_cons_of_mem _ hy))]

theorem colVals_eq_nil_of_allMissing (T : GradeTable) (h : allMissing T) (j : Nat) :
    colVals T j = [] := by
  apply reduceOption_eq_nil
  intro x hx
  rw [List.mem_map] at hx
  obtain ⟨r, hr, hrx⟩ := hx
  by_cases hj : j < r.2.length
  · rw [← hrx, List.getD_eq_getElem?_getD, List.getElem?_eq_getElem hj]
    exact h r hr _ (List.getElem_mem hj)
  · rw [← hrx, List.getD_eq_getElem?_getD, List.getElem?_eq_none (Nat.le_of_not_lt hj)]
    rfl

theorem gpaOf_eq_none_of_allMissing (T : GradeTable) (h : allMissing T) :
    gpaOf T = none := by
  unfold gpaOf
  rw [reduceOption_eq_nil]
  · rfl
  · intro x hx
    rw [List.mem_map] at hx
    obtain ⟨j, _, hjx⟩ := hx
    rw [← hjx]
    unfold colMean
    rw [colVals_eq_nil_of_allMissing T h j]
    rfl

theorem allMissing_add_multipliers (T : GradeTable) (d : List (String × ℚ))
    (h : allMissing T) : allMissing (add_multipliers T d) := by
  intro r hr c hc
  rw [(add_multipliers_spec d T).2, List.mem_map] at hr
  obtain ⟨r0, hr0, hr0r⟩ := hr
  rw [← hr0r] at hc
  simp only at hc
  rw [List.mem_map] at hc
  obtain ⟨c0, hc0, hc0c⟩ := hc
  rw [h r0 hr0 c0 hc0] at hc0c
  rw [← hc0c]
  rfl

theorem computeGpas_allMissing (T : GradeTable) (d : List (String × ℚ)) (four : Bool)
    (h : allMissing T) : computeGpas T d four = (none, none) := by
  simp only [computeGpas]
  rw [gpaOf_eq_none_of_allMissing T h,
    gpaOf_eq_none_of_allMissing _ (allMissing_add_multipliers T d h)]
  cases four <;> rfl

/-! ## Mean of column means versus the grand mean -/

theorem sum_map_div (l : List ℚ) (c : ℚ) :
    (l.map (fun x => x / c)).sum = l.sum / c := by
  induction l with
  | nil => simp
  | cons x l ih => simp [ih, add_div]

theorem gpaOf_eq_grandMean_of_balanced (T : GradeTable) (k : Nat) (hk : 0 < k)
    (hm : T.colLabels.length ≠ 0)
    (h : ∀ j < T.colLabels.length, (colVals T j).length = k) :
    gpaOf T = grandMean T := by
  have hcm : ∀ j ∈ List.range T.colLabels.length,
      colMean T j = some ((colVals T j).sum / (k : ℚ)) := by
    intro j hj
    rw [List.mem_range] at hj
    have hlen := h j hj
    have hne : (colVals T j).isEmpty = false := by
      rcases hc : colVals T j with _ | _
      · rw [hc] at hlen; simp at hlen; omega
      · rfl
    unfold colMean meanQ
    rw [hne, hlen]
    simp
  have hro := reduceOption_map_eq (List.range T.colLabels.length) (colMean T)
      (fun j => (colVals T j).sum / (k : ℚ)) hcm
  have hlen2 : (((List.range T.colLabels.length).map (colVals T)).flatten).length
      = T.colLabels.length * k := by
    rw [List.length_flatten, List.map_map]
    have hcg : ∀ j ∈ List.range T.colLabels.length,
        (List.length ∘ colVals T) j = (fun _ => k) j := by
      intro j hj
      rw [List.mem_range] at hj
      exact h j hj
    rw [List.map_congr_left hcg, List.map_const', List.sum_replicate, smul_eq_mul,
      List.length_range]
  have hsum2 : (((List.range T.colLabels.length).map (colVals T)).flatten).sum
      = ((List.range T.colLabels.length).map (fun j => (colVals T j).sum)).sum := by
    rw [List.sum_flatten, List.map_map]
    rfl
  unfold gpaOf grandMean meanQ
  rw [hro]
  have hne1 : ((List.range T.colLabels.length).map
      (fun j => (colVals T j).sum / (k : ℚ))).isEmpty = false := by
    rcases hc : (List.range T.colLabels.length).map
        (fun j => (colVals T j).sum / (k : ℚ)) with _ | _
    · exfalso
      have := congrArg List.length hc
      simp at this
      exact hm (by simp [this])
    · rfl
  have hne2 : (((List.range T.colLabels.length).map (colVals T)).flatten).isEmpty
      = false := by
    rcases hc : ((List.range T.colLabels.length).map (colVals T)).flatten with _ | _
    · exfalso
      have := congrArg List.length hc
      rw [hlen2] at this
      simp at this
      rcases this with h1 | h1
      · exact hm (by simp [h1])
      · omega
    · rfl
  rw [hne1, hne2]
  simp only [Bool.false_eq_true, if_false]
  congr 1
  have : (fun j => (colVals T j).sum / (k : ℚ))
      = (fun x => x / (k : ℚ)) ∘ (fun j => (colVals T j).sum) := rfl
  rw [this, ← List.map_map, sum_map_div, hsum2, hlen2]
  simp only [List.length_map, List.length_range]
  rw [div_div]
  push_cast
  ring

/-! ## Python dict semantics: insertion order, last write wins -/

theorem lookupD_nil (k : String) : lookupD [] k = none := rfl

theorem lookupD_cons (p : String × ℚ) (l : List (String × ℚ)) (x : String) :
    lookupD (p :: l) x = if p.1 = x then some p.2 else lookupD l x := by
  simp only [lookupD, List.find?_cons]
  by_cases h : p.1 = x
  · simp [h]
  · simp [h]

theorem lookupD_map_keep (l : List (String × ℚ)) (k : String) (v : ℚ) (x : String)
    (hx : x ≠ k) :
    lookupD (l.map (fun p => if p.1 = k then (k, v) else p)) x = lookupD l x := by
  induction l with
  | nil => rfl
  | cons p l ih =>
    rw [List.map_cons, lookupD_cons, lookupD_cons]
    by_cases hp : p.1 = k
    · rw [if_pos hp]
      simp only
      rw [if_neg (Ne.symm hx), if_neg (by rw [hp]; exact Ne.symm hx), ih]
    · rw [if_neg hp, ih]

theorem lookupD_dictInsert (l : List (String × ℚ)) (k : String) (v : ℚ) (x : String) :
    lookupD (dictInsert l k v) x = if x = k then some v else lookupD l x := by
  induction l with
  | nil =>
    simp only [dictInsert, List.any_nil, Bool.false_eq_true, if_false, List.nil_append]
    rw [lookupD_cons]
    simp only [lookupD_nil]
    by_cases h : x = k
    · rw [if_pos h, if_pos (h ▸ rfl)]
    · rw [if_neg h, if_neg (fun hk => h hk.symm)]
  | cons p l ih =>
    by_cases hp : p.1 = k
    · have hany : (p :: l).any (fun q => q.1 = k) = true := by
        simp [List.any_cons, hp]
      simp only [dictInsert, hany, if_true, List.map_cons]
      rw [if_pos hp]
      rw [lookupD_cons]
      simp only
      by_cases hx : x = k
      · rw [if_pos hx, if_pos hx.symm]
      · rw [if_neg hx, if_neg (fun h => hx h.symm), lookupD_map_keep l k v x hx,
          lookupD_cons, if_neg (hp ▸ fun h => hx h.symm)]
    · by_cases hany : l.any (fun q => q.1 = k) = true
      · have hany2 : (p :: l).any (fun q => q.1 = k) = true := by
          simp [List.any_cons, hany]
        have hl : dictInsert l k v = l.map (fun q => if q.1 = k then (k, v) else q) := by
          simp [dictInsert, hany]
        simp only [dictInsert, hany2, if_true, List.map_cons] at *
        rw [if_neg hp, lookupD_cons]
        by_cases hx : x = k
        · rw [if_pos hx, if_neg (fun h => hp (hx ▸ h)), ← hl, ih, if_pos hx]
        · rw [if_neg hx, ← hl, ih, if_neg hx, lookupD_cons]
      · have hany2 : (p :: l).any (fun q => q.1 = k) = false := by
          simp only [List.any_cons, Bool.or_eq_false_iff]
          constructor
          · simp [hp]
          · simp only [Bool.not_eq_true] at hany
            exact hany
        have hl : dictInsert l k v = l ++ [(k, v)] := by
          simp [dictInsert, hany]
        simp only [dictInsert, hany2, Bool.false_eq_true, if_false, List.cons_append]
        rw [lookupD_cons, ← hl, ih, lookupD_cons]
        by_cases hx : x = k
        · rw [if_pos hx, if_neg (fun h => hp (hx ▸ h)), if_pos hx]
        · rw [if_neg hx, if_neg hx]

theorem lookupD_dictOf_aux (ps : List (String × ℚ)) :
    ∀ (acc : List (String × ℚ)) (k : String),
    lookupD (ps.foldl (fun a p => dictInsert a p.1 p.2) acc) k =
      match (ps.filter (fun p => p.1 = k)).getLast? with
      | some p => some p.2
      | none => lookupD acc k := by
  induction ps with
  | nil =>
    intro acc k
    simp [List.filter_nil]
  | cons p ps ih =>
    intro acc k
    rw [List.foldl_cons, ih (dictInsert acc p.1 p.2) k, List.filter_cons]
    by_cases hpk : p.1 = k
    · rw [if_pos (show ((fun q => decide (q.1 = k)) p) = true by simp [hpk])]
      rcases hl : (ps.filter (fun q => q.1 = k)).getLast? with _ | q
      · have hfil := List.getLast?_eq_none_iff.mp hl
        simp only [hl, hfil, List.getLast?_singleton]
        rw [lookupD_dictInsert, if_pos hpk.symm]
        rfl
      · simp only [hl, List.getLast?_cons, Option.getD_some]
    · rw [if_neg (show ¬(((fun q => decide (q.1 = k)) p) = true) by simp [hpk])]
      rcases hl : (ps.filter (fun q => q.1 = k)).getLast? with _ | q
      · simp only [hl]
        rw [lookupD_dictInsert, if_neg (fun h => hpk h.symm)]
      · simp only [hl]

theorem lookupD_dictOf (ps : List (String × ℚ)) (k : String) :
    lookupD (dictOf ps) k =
      ((ps.filter (fun p => p.1 = k)).getLast?).map (fun p => p.2) := by
  rw [dictOf, lookupD_dictOf_aux ps [] k]
  rcases hl : (ps.filter (fun p => p.1 = k)).getLast? with _ | q
  · simp [hl, lookupD_nil]
  · simp [hl]


/-! ## Parsing the multiplier tokens -/

theorem everyOther_length : ∀ (l : List String),
    (everyOther l).length = (l.length + 1) / 2
  | [] => rfl
  | [a] => by
    simp only [everyOther, List.length_singleton]
  | a :: b :: rest => by
    simp only [everyOther, List.length_cons, everyOther_length rest]
    omega

theorem everyOther_tail_length (l : List String) :
    (everyOther l.tail).length = l.length / 2 := by
  cases l with
  | nil => rfl
  | cons a rest =>
    simp only [List.tail_cons, everyOther_length rest, List.length_cons]

theorem allSome_eq_none_of_mem {α : Type} (l : List (Option α)) (h : none ∈ l) :
    allSome l = none := by
  induction l with
  | nil => cases h
  | cons x l ih =>
    cases x with
    | none => rfl
    | some a =>
      rcases List.mem_cons.mp h with h1 | h1
      · cases h1
      · simp only [allSome, ih h1, Option.map_none']

theorem allSome_length {α : Type} : ∀ (l : List (Option α)) (v : List α),
    allSome l = some v → v.length = l.length
  | [], v, h => by
    cases h
    rfl
  | none :: l, v, h => by
    cases h
  | some a :: l, v, h => by
    simp only [allSome] at h
    rcases hrec : allSome l with _ | w
    · rw [hrec] at h
      cases h
    · rw [hrec] at h
      simp only [Option.map_some'] at h
      cases h
      simp only [List.length_cons, allSome_length l w hrec]

theorem allSome_of_isSome {α : Type} : ∀ (l : List (Option α)),
    (∀ x ∈ l, x.isSome = true) → ∃ v, allSome l = some v
  | [], _ => ⟨[], rfl⟩
  | none :: l, h => by
    exact absurd (h none (List.mem_cons_self _ _)) (by simp)
  | some a :: l, h => by
    obtain ⟨v, hv⟩ := allSome_of_isSome l (fun x hx => h x (List.mem_cons_of_mem _ hx))
    exact ⟨a :: v, by simp [allSome, hv]⟩

/-- The error cases of `parse_multipliers`: an unparseable value token or
an odd token count ends in the `except` branch (which prints and exits),
and no mapping is produced. -/
theorem parse_multipliers_error (pf : String → Option ℚ) (toks : List String)
    (h : toks.length % 2 = 1 ∨ ∃ s ∈ everyOther toks.tail, pf s = none) :
    parse_multipliers pf toks = Except.error () := by
  simp only [parse_multipliers]
  rcases hs : allSome ((everyOther toks.tail).map pf) with _ | vals
  · rfl
  · rcases h with hodd | ⟨s, hsmem, hsnone⟩
    · have hv := allSome_length _ _ hs
      rw [List.length_map, everyOther_tail_length] at hv
      have hlab : (everyOther toks).length = (toks.length + 1) / 2 :=
        everyOther_length toks
      have hne : vals.length ≠ (everyOther toks).length := by
        rw [hv, hlab]
        omega
      show (if vals.length ≠ (everyOther toks).length then Except.error ()
        else Except.ok (dictOf ((everyOther toks).zip vals))) = Except.error ()
      rw [if_pos hne]
    · exfalso
      have : none ∈ (everyOther toks.tail).map pf := by
        rw [List.mem_map]
        exact ⟨s, hsmem, hsnone⟩
      rw [allSome_eq_none_of_mem _ this] at hs
      cases hs

/-- The success case of `parse_multipliers`: an even token count whose
value tokens all parse yields the Python dict of the label/value pairs. -/
theorem parse_multipliers_ok (pf : String → Option ℚ) (toks : List String)
    (h0 : toks.length % 2 = 0) (h1 : ∀ s ∈ everyOther toks.tail, (pf s).isSome = true) :
    ∃ vals, allSome ((everyOther toks.tail).map pf) = some vals ∧
      parse_multipliers pf toks =
        Except.ok (dictOf ((everyOther toks).zip vals)) := by
  obtain ⟨vals, hv⟩ := allSome_of_isSome ((everyOther toks.tail).map pf)
    (by
      intro x hx
      rw [List.mem_map] at hx
      obtain ⟨s, hs, hsx⟩ := hx
      rw [← hsx]
      exact h1 s hs)
  refine ⟨vals, hv, ?_⟩
  simp only [parse_multipliers]
  rw [hv]
  have hlen : vals.length = (everyOther toks).length := by
    have hq := allSome_length _ _ hv
    rw [List.length_map, everyOther_tail_length] at hq
    rw [hq, everyOther_length]
    omega
  show (if vals.length ≠ (everyOther toks).length then Except.error ()
    else Except.ok (dictOf ((everyOther toks).zip vals))) =
    Except.ok (dictOf ((everyOther toks).zip vals))
  rw [if_neg (fun hne => hne hlen)]


/-! ## The store-level weighting leaves the input object unchanged -/

theorem hread_hwrite_ne (h : Heap) (w g : Nat) (t : GradeTable) (hne : g ≠ w) :
    hread (hwrite h w t) g = hread h g := by
  unfold hread hwrite
  simp only [List.getD_eq_getElem?_getD, List.getElem?_set_ne (fun he => hne he.symm)]

theorem hread_hwrite_self (h : Heap) (w : Nat) (t : GradeTable)
    (hw : w < h.cells.length) : hread (hwrite h w t) w = t := by
  unfold hread hwrite
  simp only [List.getD_eq_getElem?_getD, List.getElem?_set_self hw, Option.getD_some]

theorem hwrite_length (h : Heap) (w : Nat) (t : GradeTable) :
    (hwrite h w t).cells.length = h.cells.length := by
  unfold hwrite
  simp

theorem proc_loop (d : List (String × ℚ)) :
    ∀ (hh : Heap) (w g : Nat), g ≠ w → w < hh.cells.length →
    (d.foldl (fun x p => hwrite x w (applyTag (hread x w) p.1 p.2)) hh).cells.length
        = hh.cells.length ∧
    hread (d.foldl (fun x p => hwrite x w (applyTag (hread x w) p.1 p.2)) hh) g
        = hread hh g ∧
    hread (d.foldl (fun x p => hwrite x w (applyTag (hread x w) p.1 p.2)) hh) w
        = add_multipliers (hread hh w) d := by
  induction d with
  | nil =>
    intro hh w g hg hw
    exact ⟨rfl, rfl, rfl⟩
  | cons p d ih =>
    intro hh w g hg hw
    rw [List.foldl_cons]
    have hw2 : w < (hwrite hh w (applyTag (hread hh w) p.1 p.2)).cells.length := by
      rw [hwrite_length]
      exact hw
    obtain ⟨h1, h2, h3⟩ := ih (hwrite hh w (applyTag (hread hh w) p.1 p.2)) w g hg hw2
    refine ⟨by rw [h1, hwrite_length], ?_, ?_⟩
    · rw [h2, hread_hwrite_ne _ _ _ _ hg]
    · rw [h3, hread_hwrite_self _ _ _ hw]
      rfl

theorem halloc_fresh (h : Heap) (t : GradeTable) (g : Nat)
    (hg : g < h.cells.length) :
    hread (halloc h t).1 g = hread h g ∧
    hread (halloc h t).1 (halloc h t).2 = t ∧
    (halloc h t).2 ≠ g ∧
    (halloc h t).2 < (halloc h t).1.cells.length := by
  unfold halloc hread
  refine ⟨?_, ?_, ?_, ?_⟩
  · simp only [List.getD_eq_getElem?_getD, List.getElem?_append_left hg]
  · simp only [List.getD_eq_getElem?_getD, List.getElem?_concat_length, Option.getD_some]
  · exact fun he => absurd (he ▸ hg) (Nat.lt_irrefl _)
  · simp

/-- `add_multipliers` run on the object store: the input table object is
left untouched, the returned reference is a fresh object, and that object
holds the functional `add_multipliers` of the input. -/
theorem add_multipliers_proc_spec (h : Heap) (g : Nat) (d : List (String × ℚ))
    (hg : g < h.cells.length) :
    hread (add_multipliers_proc h g d).1 g = hread h g ∧
    (add_multipliers_proc h g d).2 ≠ g ∧
    hread (add_multipliers_proc h g d).1 (add_multipliers_proc h g d).2
      = add_multipliers (hread h g) d := by
  obtain ⟨ha1, ha2, ha3, ha4⟩ := halloc_fresh h (hread h g) g hg
  have hgw : g ≠ (halloc h (hread h g)).2 := fun he => ha3 he.symm
  obtain ⟨h1, h2, h3⟩ := proc_loop d (halloc h (hread h g)).1
    (halloc h (hread h g)).2 g hgw ha4
  refine ⟨?_, ha3, ?_⟩
  · show hread (List.foldl _ _ d) g = hread h g
    rw [h2, ha1]
  · have hsnd : (add_multipliers_proc h g d).2 = (halloc h (hread h g)).2 := rfl
    show hread (List.foldl _ _ d) (add_multipliers_proc h g d).2 = _
    rw [hsnd, h3, ha2]


/-! ## The claims -/

/-- C1.  The claim fails as stated: for the registry tag `AP` and the row
label `"a\nb AP"`, the tag occurs as a whitespace-delimited token (it is
preceded by a space), but the spliced pattern does not match, because its
`.*` cannot cross the newline earlier in the label. -/
theorem claim_C1_counterexample :
    "AP" ∈ defaultDict.map Prod.fst ∧
    tokenMatch "AP" "a\nb AP" = true ∧
    pyTagMatch "AP" "a\nb AP" = false := by
  refine ⟨?_, by decide, by decide⟩
  show "AP" ∈ ["AP", "Pre-AP"]
  decide

/-- C1 (amended).  For tags made of non-pattern-special characters (none
of `isPatternSpecial`, the domain on which the spliced pattern treats the
tag literally) and labels without newline characters, the weighting
step's matching is exactly whitespace-delimited token occurrence; in
particular `AP` does not match `Pre-AP Chemistry` while `Pre-AP` does. -/
theorem claim_C1_token_matching (tag label : String)
    (hspec : ∀ c ∈ tag.data, isPatternSpecial c = false)
    (hnl : '\n' ∉ label.data) :
    pyTagMatch tag label = tokenMatch tag label ∧
    pyTagMatch "AP" "Pre-AP Chemistry" = false ∧
    pyTagMatch "Pre-AP" "Pre-AP Chemistry" = true :=
  ⟨pyTagMatch_eq_tokenMatch tag label
      (fun hmem => absurd (hspec '.' hmem) (by decide)) hnl,
   by decide, by decide⟩

theorem claim_C1_token_matching_witness :
    pyTagMatch "AP" "AP Biology" = tokenMatch "AP" "AP Biology" ∧
    pyTagMatch "AP" "Pre-AP Chemistry" = false ∧
    pyTagMatch "Pre-AP" "Pre-AP Chemistry" = true :=
  claim_C1_token_matching "AP" "AP Biology" (by decide) (by decide)

/-- C2.  The concrete scenario: weighting the table multiplies `AP
Biology` by `1.2` and leaves `Algebra` alone; the unweighted and weighted
GPAs are `85` and `94`, and `3.4` and `3.8` with the four-point flag. -/
theorem claim_C2_scenario :
    (add_multipliers T2 defaultDict).rows
      = [("AP Biology", [some 108]), ("Algebra", [some 80])] ∧
    computeGpas T2 defaultDict false = (some 85, some 94) ∧
    computeGpas T2 defaultDict true = (some (17/5), some (19/5)) := by
  have h1 : pyTagMatch "AP" "AP Biology" = true := by decide
  have h2 : pyTagMatch "Pre-AP" "AP Biology" = false := by decide
  have h3 : pyTagMatch "AP" "Algebra" = false := by decide
  have h4 : pyTagMatch "Pre-AP" "Algebra" = false := by decide
  have hW : add_multipliers T2 defaultDict
      = ⟨["g1"], [("AP Biology", [some 108]), ("Algebra", [some 80])]⟩ := by
    simp [add_multipliers, defaultDict, applyTag, scaleRow, scaleCell, T2, h1, h2, h3, h4]
    norm_num
  have hg : gpaOf T2 = some 85 := by
    simp [gpaOf, colMean, colVals, meanQ, T2, List.range_succ]
    norm_num
  have hw : gpaOf (⟨["g1"], [("AP Biology", [some 108]), ("Algebra", [some 80])]⟩
      : GradeTable) = some 94 := by
    simp [gpaOf, colMean, colVals, meanQ, List.range_succ]
    norm_num
  refine ⟨by rw [hW], ?_, ?_⟩
  · simp only [computeGpas, hW, hg, hw, Bool.false_eq_true, if_false, Option.map_some']
    rw [round1_85, round1_94]
  · simp only [computeGpas, hW, hg, hw, if_true, Option.map_some']
    rw [show (85 : ℚ)/25 = 17/5 by norm_num, round1_17d5, round1_94d25]

/-- C3.  The weighted table multiplies every cell of a row by the product
of all matching multipliers; the result is invariant under permuting the
registry, and a row matching no tag has composite multiplier `1`. -/
theorem claim_C3_composite_multiplier (T : GradeTable) (d : List (String × ℚ)) :
    ((add_multipliers T d).colLabels = T.colLabels ∧
     (add_multipliers T d).rows =
       T.rows.map (fun r => (r.1, r.2.map (Option.map (fun x => x * prodMult d r.1))))) ∧
    (∀ dd, d.Perm dd → add_multipliers T d = add_multipliers T dd) ∧
    (∀ r ∈ T.rows, (∀ p ∈ d, pyTagMatch p.1 r.1 = false) → prodMult d r.1 = 1) :=
  ⟨add_multipliers_spec d T, fun dd hp => add_multipliers_perm T d dd hp,
   fun r _ h => prodMult_eq_one d r.1 h⟩

theorem claim_C3_composite_multiplier_witness :
    add_multipliers T2 defaultDict
      = add_multipliers T2 [("Pre-AP", 11/10), ("AP", 6/5)] :=
  (claim_C3_composite_multiplier T2 defaultDict).2.1
    [("Pre-AP", 11/10), ("AP", 6/5)] (List.Perm.swap _ _ _)

/-- C4.  The tag is spliced into the pattern unescaped, so a
metacharacter in the tag acts as a pattern operator: the tag `A.` matches
the label `AB` (its `.` matches `B`) although `A.` does not occur in `AB`
as a whitespace-delimited token, and the weighting step multiplies the
row accordingly. -/
theorem claim_C4_metachar_not_literal :
    pyTagMatch "A." "AB" = true ∧
    tokenMatch "A." "AB" = false ∧
    (add_multipliers ⟨["c1"], [("AB", [some 1])]⟩ [("A.", 2)]).rows
      = [("AB", [some 2])] := by
  have h : pyTagMatch "A." "AB" = true := by decide
  refine ⟨h, by decide, ?_⟩
  simp [add_multipliers, applyTag, scaleRow, scaleCell, h]

/-- C5.  The claim fails as stated: with missing cells spread unevenly,
`grades.mean().mean()` is the mean of the column means (82.5 for `T5`),
not the grand mean of all numeric cells (80). -/
theorem claim_C5_counterexample :
    gpaOf T5 = some (165/2) ∧ grandMean T5 = some 80 ∧ (165/2 : ℚ) ≠ 80 := by
  refine ⟨?_, ?_, by norm_num⟩
  · simp [gpaOf, colMean, colVals, meanQ, T5, List.range_succ]
    norm_num
  · simp [grandMean, colVals, meanQ, T5, List.range_succ]
    norm_num

/-- C5 (amended).  The aggregator returns the mean of the per-column
means; when every column has the same positive number of numeric cells,
this equals the grand mean of all numeric cells. -/
theorem claim_C5_grand_mean_balanced (T : GradeTable) (k : Nat) (hk : 0 < k)
    (hm : T.colLabels.length ≠ 0)
    (h : ∀ j < T.colLabels.length, (colVals T j).length = k) :
    gpaOf T = grandMean T :=
  gpaOf_eq_grandMean_of_balanced T k hk hm h

theorem claim_C5_grand_mean_balanced_witness : gpaOf T2 = grandMean T2 :=
  claim_C5_grand_mean_balanced T2 2 (by decide) (by decide) (by decide)

end GpaCalc

namespace GpaCalc

/-- C6.  The claim fails as stated: on a table with no numeric cells the
pipeline does not fail — `mean()` of an empty selection is `NaN`
(modelled `none`), the run completes and reports `nan` GPAs.  (No
`EmptyTableError` exists anywhere in the program.) -/
theorem claim_C6_counterexample :
    mainRun T6 none false pfW = Except.ok (none, none) := by
  have hmiss : allMissing T6 := by
    unfold allMissing T6
    decide
  show Except.ok (computeGpas T6 defaultDict false) = Except.ok (none, none)
  rw [computeGpas_allMissing T6 defaultDict false hmiss]

/-- C6 (amended).  For every table with no numeric cells, both GPAs are
`NaN` (`none`) — a value is produced and printed, no error is raised. -/
theorem claim_C6_nan_gpas (T : GradeTable) (d : List (String × ℚ)) (four : Bool)
    (h : allMissing T) : computeGpas T d four = (none, none) :=
  computeGpas_allMissing T d four h

theorem claim_C6_nan_gpas_witness : computeGpas T6 defaultDict true = (none, none) :=
  claim_C6_nan_gpas T6 defaultDict true (by unfold allMissing T6; decide)

/-- C7.  Parsing the multiplier tokens fails (the `except`-and-`exit`
branch, the spec's ConfigurationError) whenever the token count is odd or
some value token does not parse as a float, and no mapping is produced. -/
theorem claim_C7_config_error (pf : String → Option ℚ) (toks : List String)
    (h : toks.length % 2 = 1 ∨ ∃ s ∈ everyOther toks.tail, pf s = none) :
    parse_multipliers pf toks = Except.error () :=
  parse_multipliers_error pf toks h

theorem claim_C7_config_error_witness :
    parse_multipliers pfW ["AP"] = Except.error () :=
  claim_C7_config_error pfW ["AP"] (Or.inl (by decide))

/-- C8.  Weighting with an empty registry is the identity: the loop body
never runs and the copy equals the input table exactly. -/
theorem claim_C8_empty_registry_identity (T : GradeTable) :
    add_multipliers T [] = T := rfl

/-- C9.  On the object store, `add_multipliers` leaves the input table's
object untouched, returns a reference distinct from the input's, and the
fresh object holds the weighted table. -/
theorem claim_C9_no_mutation (h : Heap) (g : Nat) (d : List (String × ℚ))
    (hg : g < h.cells.length) :
    hread (add_multipliers_proc h g d).1 g = hread h g ∧
    (add_multipliers_proc h g d).2 ≠ g ∧
    hread (add_multipliers_proc h g d).1 (add_multipliers_proc h g d).2
      = add_multipliers (hread h g) d :=
  add_multipliers_proc_spec h g d hg

theorem claim_C9_no_mutation_witness :
    hread (add_multipliers_proc ⟨[T2]⟩ 0 defaultDict).1 0 = hread ⟨[T2]⟩ 0 ∧
    (add_multipliers_proc ⟨[T2]⟩ 0 defaultDict).2 ≠ 0 ∧
    hread (add_multipliers_proc ⟨[T2]⟩ 0 defaultDict).1
        (add_multipliers_proc ⟨[T2]⟩ 0 defaultDict).2
      = add_multipliers (hread ⟨[T2]⟩ 0) defaultDict :=
  claim_C9_no_mutation ⟨[T2]⟩ 0 defaultDict (by decide)

/-- C10.  An even token list whose value tokens all parse succeeds even
with duplicate tags; the resulting dict maps a tag to the value after its
last occurrence (later pairs overwrite earlier ones). -/
theorem claim_C10_duplicate_tags (pf : String → Option ℚ) (toks : List String)
    (h0 : toks.length % 2 = 0)
    (h1 : ∀ s ∈ everyOther toks.tail, (pf s).isSome = true) :
    ∃ vals, allSome ((everyOther toks.tail).map pf) = some vals ∧
      parse_multipliers pf toks = Except.ok (dictOf ((everyOther toks).zip vals)) ∧
      ∀ tag, lookupD (dictOf ((everyOther toks).zip vals)) tag =
        ((((everyOther toks).zip vals).filter (fun p => p.1 = tag)).getLast?).map
          (fun p => p.2) := by
  obtain ⟨vals, hv, hok⟩ := parse_multipliers_ok pf toks h0 h1
  exact ⟨vals, hv, hok, fun tag => lookupD_dictOf _ tag⟩

theorem claim_C10_duplicate_tags_witness :
    ∃ vals, allSome ((everyOther toks0.tail).map pfW) = some vals ∧
      parse_multipliers pfW toks0 = Except.ok (dictOf ((everyOther toks0).zip vals)) ∧
      ∀ tag, lookupD (dictOf ((everyOther toks0).zip vals)) tag =
        ((((everyOther toks0).zip vals).filter (fun p => p.1 = tag)).getLast?).map
          (fun p => p.2) :=
  claim_C10_duplicate_tags pfW toks0 (by decide) (by decide)


end GpaCalc
